import Mathlib

/-!
Verification of the Hugging Face model ETL pipeline (src/dags/app.py).

The three task callables `extract_model_data`, `transform_model_data` and
`load_to_postgres` are shallowly embedded.  Python dict values that may be
`None` (or an absent key retrieved via `dict.get`) are modelled as `Option`;
Python truthiness on strings (`not mid`, `x or 'N/A'`) keys on `none` and the
empty string, and on lists on `none` and the empty list.  The XCom hand-off is
modelled by returning the list of `(key, value)` pushes a task performs, the
Postgres table as a list of rows with the `INSERT ... ON CONFLICT (model_id)
DO UPDATE` statement as an in-place row replacement, and the statements a
Loader run issues as an explicit trace.  A database error during the upsert
loop is modelled by an oracle saying which statement (by index) fails.
-/

namespace ETL

/-- A raw model record as built by the extract phase / consumed by the
transform phase: every field may be `None` / absent. -/
structure RawModel where
  model_id : Option String
  author : Option String
  pipeline_tag : Option String
  tags : Option (List String)
  last_modified : Option String
deriving DecidableEq, Repr

/-- A cleaned record as appended by `transform_model_data`, and equally a row
of the `ai_models` table. -/
structure CleanModel where
  model_id : String
  author : String
  pipeline_tag : String
  tags : List String
  last_modified : Option String
deriving DecidableEq, Repr

/-- The pushes to the XCom hand-off store a task performs, plus its return
status string. -/
structure TaskOutput (α : Type) where
  pushes : List (String × α)
  status : String
deriving DecidableEq, Repr

/-! ## Extract phase -/

/-- `extract_model_data`: the whole `try` body (API call and mapping into raw
records) is modelled as an `Except` value.  On success the mapped list is
pushed under `raw_models`; on any exception the handler pushes `[]` under
`raw_models` and returns the soft-failure status. -/
def extract_model_data (attempt : Except String (List RawModel)) :
    TaskOutput (List RawModel) :=
  match attempt with
  | .ok raw_models => ⟨[("raw_models", raw_models)], "Extract completed successfully"⟩
  | .error _ => ⟨[("raw_models", [])], "Extract failed"⟩

/-! ## Transform phase -/

/-- `mid = m.get('model_id')` followed by the truthiness test `not mid`:
the record's id when present and non-empty, else `none`. -/
def validIdOf (m : RawModel) : Option String :=
  match m.model_id with
  | some s => if s = "" then none else some s
  | none => none

/-- Python `v or 'N/A'` on an optional string: `none` and `""` are falsy. -/
def orNA (v : Option String) : String :=
  match v with
  | some s => if s = "" then "N/A" else s
  | none => "N/A"

/-- Python `v or []` on an optional list: `none` and `[]` both give `[]`,
which is just `getD []`. -/
def orEmpty (v : Option (List String)) : List String :=
  v.getD []

/-- The dict appended to `transformed_data` for a kept record with valid id
`mid`. -/
def cleanRecord (mid : String) (m : RawModel) : CleanModel :=
  { model_id := mid
    author := orNA m.author
    pipeline_tag := orNA m.pipeline_tag
    tags := orEmpty m.tags
    last_modified := m.last_modified }

/-- The `for m in raw_models` loop of `transform_model_data`, with the `seen`
set threaded as a list of already-emitted ids. -/
def transformGo : List RawModel → List String → List CleanModel
  | [], _ => []
  | m :: rest, seen =>
    match validIdOf m with
    | none => transformGo rest seen
    | some mid =>
      if mid ∈ seen then transformGo rest seen
      else cleanRecord mid m :: transformGo rest (mid :: seen)

/-- The loop started with `seen = set()`. -/
def transform (raw_models : List RawModel) : List CleanModel :=
  transformGo raw_models []

/-- `transform_model_data`: pull `raw_models` (a missing or falsy value
becomes `[]` via `or []`), run the cleaning loop, push the result under
`transformed_models`. -/
def transform_model_data (pulled : Option (List RawModel)) :
    TaskOutput (List CleanModel) :=
  let raw_models := pulled.getD []
  ⟨[("transformed_models", transform raw_models)], "Transform completed successfully"⟩

/-! ## Load phase -/

/-- A SQL statement issued by the Loader through `postgres_hook.run`. -/
inductive DBOp
  | createTable
  | upsertStmt (r : CleanModel)
deriving DecidableEq, Repr

/-- The `INSERT ... ON CONFLICT (model_id) DO UPDATE` statement: on a
primary-key conflict every non-key column is overwritten with the incoming
values (so the conflicting row becomes exactly `r`), otherwise a new row is
appended. -/
def upsert (t : List CleanModel) (r : CleanModel) : List CleanModel :=
  if t.any (fun row => row.model_id == r.model_id) then
    t.map (fun row => if row.model_id == r.model_id then r else row)
  else
    t ++ [r]

/-- The per-record upsert loop.  `failAt i = true` means the database raises
on the statement for the `i`-th record: the statement is issued (it appears
in the trace) but commits nothing, the loop stops and the exception is
re-raised (`Bool` result `false`).  Each successful statement commits on its
own; no transaction wraps the batch. -/
def upsertLoop (failAt : Nat → Bool) :
    List CleanModel → Nat → List CleanModel → List CleanModel × List DBOp × Bool
  | [], _, t => (t, [], true)
  | r :: rest, i, t =>
    if failAt i then (t, [DBOp.upsertStmt r], false)
    else
      let res := upsertLoop failAt rest (i + 1) (upsert t r)
      (res.1, DBOp.upsertStmt r :: res.2.1, res.2.2)

instance : DecidableEq (Except Unit String) := fun a b =>
  match a, b with
  | .error u, .error v => isTrue (by cases u; cases v; rfl)
  | .ok s, .ok t => decidable_of_iff (s = t) (by simp)
  | .error _, .ok _ => isFalse (by simp)
  | .ok _, .error _ => isFalse (by simp)

/-- The Loader's result: the table afterwards, the trace of statements
issued, and either the returned status string or the re-raised error. -/
structure LoadResult where
  table : List CleanModel
  ops : List DBOp
  status : Except Unit String
deriving DecidableEq, Repr

/-- `load_to_postgres`: pull `transformed_models`; on a missing or empty
value return early with the no-data status and touch the database not at
all; otherwise issue the idempotent `CREATE TABLE IF NOT EXISTS` and one
upsert per record in input order. -/
def load_to_postgres (failAt : Nat → Bool)
    (pulled : Option (List CleanModel)) (t : List CleanModel) : LoadResult :=
  match pulled with
  | some (d :: ds) =>
    let transformed_data := d :: ds
    let res := upsertLoop failAt transformed_data 0 t
    { table := res.1
      ops := DBOp.createTable :: res.2.1
      status :=
        if res.2.2 then
          Except.ok ("loaded " ++ toString transformed_data.length ++ " models")
        else Except.error () }
  | _ => { table := t, ops := [], status := Except.ok "No data to load" }

/-- The oracle of a run in which no database error occurs. -/
def noFail : Nat → Bool := fun _ => false

/-! ## Spec-side definition for the order claim -/

/-- Modelled from the spec: "the sequence of first occurrences of valid
`model_id` values in the input, in the same relative order" — keep each value
at its first occurrence, drop every later repetition. -/
def firstDedup : List String → List String
  | [] => []
  | x :: xs => x :: (firstDedup xs).filter (fun y => y ≠ x)

/-! ## Concrete fixtures used to instantiate the theorems below -/

def rawA : RawModel := ⟨some "m1", none, some "text-gen", some [], some "2024-01-01"⟩

def rawB : RawModel := ⟨some "m1", some "alice", some "nlp", some ["extra"], some "2024-01-02"⟩

def rawFalsy : RawModel := ⟨some "m2", some "", some "", some [], none⟩

def rowA : CleanModel := ⟨"m1", "ann", "nlp", ["t"], some "2024-01-01"⟩

def rowB : CleanModel := ⟨"m2", "bob", "cv", [], some "2024-01-02"⟩

def rowC : CleanModel := ⟨"m3", "cat", "asr", [], none⟩

/-! ## Transformer lemmas -/

lemma firstDedup_nodup (l : List String) : (firstDedup l).Nodup := by
  induction l with
  | nil => simp [firstDedup]
  | cons x xs ih =>
    simp only [firstDedup]
    refine List.nodup_cons.mpr ⟨?_, List.Nodup.filter _ ih⟩
    intro hx
    have hne := (List.mem_filter.mp hx).2
    simp at hne

lemma transformGo_map_id (l : List RawModel) :
    ∀ seen : List String,
      (transformGo l seen).map (fun c => c.model_id) =
        (firstDedup (l.filterMap validIdOf)).filter (fun y => decide (y ∉ seen)) := by
  induction l with
  | nil => intro seen; simp [transformGo, firstDedup]
  | cons m rest ih =>
    intro seen
    cases hv : validIdOf m with
    | none =>
      simp only [transformGo, hv, List.filterMap_cons]
      exact ih seen
    | some mid =>
      simp only [transformGo, hv, List.filterMap_cons, firstDedup]
      by_cases hs : mid ∈ seen
      · rw [if_pos hs, List.filter_cons_of_neg (by simp [hs]), List.filter_filter]
        rw [ih seen]
        apply List.filter_congr
        intro y _
        by_cases hy : y ∈ seen
        · simp [hy]
        · have hne : y ≠ mid := fun h => hy (h ▸ hs)
          simp [hy, hne]
      · rw [if_neg hs, List.filter_cons_of_pos (by simp [hs]), List.map_cons]
        have hhead : (cleanRecord mid m).model_id = mid := rfl
        rw [hhead, ih (mid :: seen), List.filter_filter]
        congr 1
        apply List.filter_congr
        intro y _
        by_cases h1 : y = mid
        · simp [h1]
        · by_cases h2 : y ∈ seen <;> simp [h1, h2]

lemma transform_ids_nodup (raw : List RawModel) :
    ((transform raw).map (fun c => c.model_id)).Nodup := by
  rw [transform, transformGo_map_id raw []]
  exact List.Nodup.filter _ (firstDedup_nodup _)

lemma transformGo_find? (l : List RawModel) :
    ∀ (seen : List String) (mid : String), mid ∉ seen →
      (transformGo l seen).find? (fun c => c.model_id == mid) =
        (l.find? (fun m => validIdOf m == some mid)).map (fun m => cleanRecord mid m) := by
  induction l with
  | nil => intro seen mid _; simp [transformGo]
  | cons m rest ih =>
    intro seen mid hmid
    cases hv : validIdOf m with
    | none =>
      simp only [transformGo, hv]
      rw [List.find?_cons_of_neg _ (by simp [hv])]
      exact ih seen mid hmid
    | some mid' =>
      simp only [transformGo, hv]
      by_cases hs : mid' ∈ seen
      · rw [if_pos hs]
        have hne : mid' ≠ mid := fun h => hmid (h ▸ hs)
        rw [List.find?_cons_of_neg _ (by simp [hv, hne])]
        exact ih seen mid hmid
      · rw [if_neg hs]
        by_cases heq : mid' = mid
        · subst heq
          rw [List.find?_cons_of_pos _ (by simp [cleanRecord])]
          rw [List.find?_cons_of_pos _ (by simp [hv])]
          simp
        · rw [List.find?_cons_of_neg _ (by simp [cleanRecord, heq])]
          rw [List.find?_cons_of_neg _ (by simp [hv, heq])]
          have hmid' : mid ∉ mid' :: seen := by
            intro h
            rcases List.mem_cons.mp h with h1 | h2
            · exact heq h1.symm
            · exact hmid h2
          exact ih (mid' :: seen) mid hmid'

lemma transform_find? (raw : List RawModel) (mid : String) :
    (transform raw).find? (fun c => c.model_id == mid) =
      (raw.find? (fun m => validIdOf m == some mid)).map (fun m => cleanRecord mid m) :=
  transformGo_find? raw [] mid (List.not_mem_nil mid)

lemma transformGo_filter_valid (l : List RawModel) :
    ∀ seen, transformGo (l.filter (fun m => (validIdOf m).isSome)) seen = transformGo l seen := by
  induction l with
  | nil => intro seen; rfl
  | cons m rest ih =>
    intro seen
    cases hv : validIdOf m with
    | none =>
      rw [List.filter_cons_of_neg (by simp [hv])]
      simp only [transformGo, hv]
      exact ih seen
    | some mid =>
      rw [List.filter_cons_of_pos (by simp [hv])]
      simp only [transformGo, hv]
      by_cases hs : mid ∈ seen
      · rw [if_pos hs, if_pos hs]; exact ih seen
      · rw [if_neg hs, if_neg hs, ih (mid :: seen)]

end ETL

namespace ETL

/-- C1: for every input list of raw records, the Transformer's output
contains no two records with equal `model_id` — the mapped id sequence has
no duplicates. -/
theorem transform_model_id_unique (raw : List RawModel) :
    ((transform raw).map (fun c => c.model_id)).Nodup :=
  transform_ids_nodup raw

/-- C5: the sequence of `model_id` values in the Transformer's output is
exactly the sequence of first occurrences of valid ids in the input, in the
same relative order. -/
theorem transform_first_occurrence_order (raw : List RawModel) :
    (transform raw).map (fun c => c.model_id) = firstDedup (raw.filterMap validIdOf) := by
  rw [transform, transformGo_map_id raw []]
  apply List.filter_eq_self.mpr
  intro y _
  simp

/-- C6: when the input contains records sharing a `model_id`, the output has
exactly one entry for that id, and it is the cleaned first occurrence — every
later duplicate is dropped entirely, whatever data it carries. -/
theorem transform_first_seen_wins (raw : List RawModel) (mid : String) (m : RawModel)
    (h : raw.find? (fun x => validIdOf x == some mid) = some m) :
    (transform raw).find? (fun c => c.model_id == mid) = some (cleanRecord mid m) ∧
      (transform raw).countP (fun c => c.model_id == mid) = 1 := by
  have hf : (transform raw).find? (fun c => c.model_id == mid) = some (cleanRecord mid m) := by
    rw [transform_find?, h]; rfl
  refine ⟨hf, ?_⟩
  have hmem : cleanRecord mid m ∈ transform raw := List.mem_of_find?_eq_some hf
  have hmidmem : mid ∈ (transform raw).map (fun c => c.model_id) :=
    List.mem_map.mpr ⟨cleanRecord mid m, hmem, rfl⟩
  have hle := List.nodup_iff_count_le_one.mp (transform_ids_nodup raw) mid
  have hpos := List.count_pos_iff.mpr hmidmem
  have hcount : ((transform raw).map (fun c => c.model_id)).count mid = 1 := by omega
  calc (transform raw).countP (fun c => c.model_id == mid)
      = ((transform raw).map (fun c => c.model_id)).countP (fun y => y == mid) := by
        rw [List.countP_map]; rfl
    _ = ((transform raw).map (fun c => c.model_id)).count mid :=
        (List.count_eq_countP mid _).symm
    _ = 1 := hcount

/-- Witness for C6: two raw records share id `m1`; the output keeps exactly
the cleaned first one. -/
theorem transform_first_seen_wins_witness :
    ([rawA, rawB].find? (fun x => validIdOf x == some "m1") = some rawA) ∧
      ((transform [rawA, rawB]).find? (fun c => c.model_id == "m1") =
          some (cleanRecord "m1" rawA) ∧
        (transform [rawA, rawB]).countP (fun c => c.model_id == "m1") = 1) :=
  ⟨by decide, transform_first_seen_wins [rawA, rawB] "m1" rawA (by decide)⟩

/-- C7: a kept record whose `author` or `pipeline_tag` is absent gets the
literal `"N/A"` in that field, and an absent `tags` becomes the empty list. -/
theorem transform_defaults_missing (raw : List RawModel) (mid : String) (m : RawModel)
    (h : raw.find? (fun x => validIdOf x == some mid) = some m) :
    (m.author = none →
      ((transform raw).find? (fun c => c.model_id == mid)).map (fun c => c.author) =
        some "N/A") ∧
    (m.pipeline_tag = none →
      ((transform raw).find? (fun c => c.model_id == mid)).map (fun c => c.pipeline_tag) =
        some "N/A") ∧
    (m.tags = none →
      ((transform raw).find? (fun c => c.model_id == mid)).map (fun c => c.tags) =
        some []) := by
  have hf : (transform raw).find? (fun c => c.model_id == mid) = some (cleanRecord mid m) := by
    rw [transform_find?, h]; rfl
  refine ⟨fun hx => ?_, fun hx => ?_, fun hx => ?_⟩ <;>
    simp [hf, cleanRecord, orNA, orEmpty, hx]

/-- Witness for C7: Scenario A's record with `author = None` comes out with
author `"N/A"`. -/
theorem transform_defaults_missing_witness :
    ((transform [rawA]).find? (fun c => c.model_id == "m1")).map (fun c => c.author) =
      some "N/A" :=
  (transform_defaults_missing [rawA] "m1" rawA (by decide)).1 rfl

/-- C9: records with an absent or empty `model_id` contribute nothing to the
output (filtering them away changes nothing), and a missing `raw_models`
value is treated exactly like an empty input list. -/
theorem transform_skips_invalid (raw : List RawModel) :
    transform raw = transform (raw.filter (fun m => (validIdOf m).isSome)) ∧
      transform_model_data none = transform_model_data (some []) :=
  ⟨(transformGo_filter_valid raw []).symm, rfl⟩

/-- C10: the `"N/A"` sentinel is applied to present-but-falsy fields too: an
empty-string `author` or `pipeline_tag` becomes `"N/A"`, an empty `tags` list
stays the empty list. -/
theorem transform_defaults_falsy (raw : List RawModel) (mid : String) (m : RawModel)
    (h : raw.find? (fun x => validIdOf x == some mid) = some m) :
    (m.author = some "" →
      ((transform raw).find? (fun c => c.model_id == mid)).map (fun c => c.author) =
        some "N/A") ∧
    (m.pipeline_tag = some "" →
      ((transform raw).find? (fun c => c.model_id == mid)).map (fun c => c.pipeline_tag) =
        some "N/A") ∧
    (m.tags = some [] →
      ((transform raw).find? (fun c => c.model_id == mid)).map (fun c => c.tags) =
        some []) := by
  have hf : (transform raw).find? (fun c => c.model_id == mid) = some (cleanRecord mid m) := by
    rw [transform_find?, h]; rfl
  refine ⟨fun hx => ?_, fun hx => ?_, fun hx => ?_⟩ <;>
    simp [hf, cleanRecord, orNA, orEmpty, hx]

/-! ## Loader lemmas -/

lemma upsertLoop_noFail (L : List CleanModel) :
    ∀ (i : Nat) (t : List CleanModel),
      upsertLoop noFail L i t = (L.foldl upsert t, L.map DBOp.upsertStmt, true) := by
  induction L with
  | nil => intro i t; rfl
  | cons r rest ih => intro i t; simp [upsertLoop, noFail, ih]

lemma load_noFail_table (L t : List CleanModel) :
    (load_to_postgres noFail (some L) t).table = L.foldl upsert t := by
  cases L with
  | nil => rfl
  | cons d ds => simp [load_to_postgres, upsertLoop_noFail]

lemma upsert_map_model_id_conflict (t : List CleanModel) (r : CleanModel)
    (h : t.any (fun row => row.model_id == r.model_id) = true) :
    (upsert t r).map (fun row => row.model_id) = t.map (fun row => row.model_id) := by
  rw [upsert, if_pos h, List.map_map]
  apply List.map_congr_left
  intro row _
  simp only [Function.comp]
  by_cases hid : row.model_id = r.model_id
  · simp [hid]
  · simp [hid]

lemma upsert_map_model_id_new (t : List CleanModel) (r : CleanModel)
    (h : t.any (fun row => row.model_id == r.model_id) = false) :
    (upsert t r).map (fun row => row.model_id) =
      t.map (fun row => row.model_id) ++ [r.model_id] := by
  rw [upsert, if_neg (by simp [h])]
  simp

lemma upsert_nodup (t : List CleanModel) (r : CleanModel)
    (ht : (t.map (fun row => row.model_id)).Nodup) :
    ((upsert t r).map (fun row => row.model_id)).Nodup := by
  cases hany : t.any (fun row => row.model_id == r.model_id) with
  | true => rw [upsert_map_model_id_conflict t r hany]; exact ht
  | false =>
    rw [upsert_map_model_id_new t r hany]
    have hnot : r.model_id ∉ t.map (fun row => row.model_id) := by
      intro hmem
      rcases List.mem_map.mp hmem with ⟨row, hrow, hid⟩
      have : t.any (fun row => row.model_id == r.model_id) = true :=
        List.any_eq_true.mpr ⟨row, hrow, by simp [hid]⟩
      rw [hany] at this
      exact Bool.false_ne_true this
    simp [List.nodup_append, ht, hnot]

lemma replace_filter_self (t : List CleanModel) (r : CleanModel)
    (ht : (t.map (fun row => row.model_id)).Nodup)
    (h : t.any (fun row => row.model_id == r.model_id) = true) :
    (t.map (fun row => if row.model_id == r.model_id then r else row)).filter
      (fun row => row.model_id == r.model_id) = [r] := by
  induction t with
  | nil => simp at h
  | cons x rest ih =>
    rw [List.map_cons] at ht
    have hx_notin := (List.nodup_cons.mp ht).1
    have ht' := (List.nodup_cons.mp ht).2
    by_cases hx : x.model_id = r.model_id
    · rw [List.map_cons, if_pos (show (x.model_id == r.model_id) = true by simp [hx])]
      rw [List.filter_cons_of_pos (by simp)]
      have hrest : (rest.map (fun row => if row.model_id == r.model_id then r else row)).filter
          (fun row => row.model_id == r.model_id) = [] := by
        rw [List.filter_eq_nil_iff]
        intro a ha
        rcases List.mem_map.mp ha with ⟨row, hrow, rfl⟩
        have hrowid : row.model_id ≠ r.model_id := by
          intro he
          exact hx_notin (List.mem_map.mpr ⟨row, hrow, he.trans hx.symm⟩)
        simp [hrowid]
      rw [hrest]
    · rw [List.any_cons] at h
      have hxr : (x.model_id == r.model_id) = false := by simp [hx]
      rw [hxr, Bool.false_or] at h
      rw [List.map_cons, if_neg (by simp [hx]), List.filter_cons_of_neg (by simp [hx])]
      exact ih ht' h

lemma upsert_filter_self (t : List CleanModel) (r : CleanModel)
    (ht : (t.map (fun row => row.model_id)).Nodup) :
    (upsert t r).filter (fun row => row.model_id == r.model_id) = [r] := by
  cases hany : t.any (fun row => row.model_id == r.model_id) with
  | true => rw [upsert, if_pos hany]; exact replace_filter_self t r ht hany
  | false =>
    rw [upsert, if_neg (by simp [hany]), List.filter_append]
    have h1 : t.filter (fun row => row.model_id == r.model_id) = [] := by
      rw [List.filter_eq_nil_iff]
      intro a ha hpa
      have : t.any (fun row => row.model_id == r.model_id) = true :=
        List.any_eq_true.mpr ⟨a, ha, hpa⟩
      rw [hany] at this
      exact Bool.false_ne_true this
    rw [h1]
    simp

lemma replace_filter_other (t : List CleanModel) (r : CleanModel) (s : String)
    (hne : s ≠ r.model_id) :
    (t.map (fun row => if row.model_id == r.model_id then r else row)).filter
        (fun row => row.model_id == s) =
      t.filter (fun row => row.model_id == s) := by
  induction t with
  | nil => rfl
  | cons x rest ih =>
    by_cases hx : x.model_id = r.model_id
    · rw [List.map_cons, if_pos (show (x.model_id == r.model_id) = true by simp [hx])]
      rw [List.filter_cons_of_neg (by simp [Ne.symm hne]),
        List.filter_cons_of_neg (by simp [hx, Ne.symm hne])]
      exact ih
    · rw [List.map_cons, if_neg (by simp [hx]), List.filter_cons, List.filter_cons, ih]

lemma upsert_filter_other (t : List CleanModel) (r : CleanModel) (s : String)
    (hne : s ≠ r.model_id) :
    (upsert t r).filter (fun row => row.model_id == s) =
      t.filter (fun row => row.model_id == s) := by
  cases hany : t.any (fun row => row.model_id == r.model_id) with
  | true => rw [upsert, if_pos hany]; exact replace_filter_other t r s hne
  | false =>
    rw [upsert, if_neg (by simp [hany]), List.filter_append]
    simp [Ne.symm hne]

lemma foldl_upsert_nodup (L : List CleanModel) :
    ∀ t : List CleanModel, (t.map (fun row => row.model_id)).Nodup →
      ((L.foldl upsert t).map (fun row => row.model_id)).Nodup := by
  induction L with
  | nil => intro t ht; exact ht
  | cons x xs ih => intro t ht; exact ih _ (upsert_nodup t x ht)

lemma foldl_upsert_untouched (L : List CleanModel) :
    ∀ (t : List CleanModel) (s : String), s ∉ L.map (fun rec => rec.model_id) →
      (L.foldl upsert t).filter (fun row => row.model_id == s) =
        t.filter (fun row => row.model_id == s) := by
  induction L with
  | nil => intro t s _; rfl
  | cons x xs ih =>
    intro t s hs
    rw [List.map_cons] at hs
    have h1 : s ≠ x.model_id := fun h => hs (by rw [h]; exact List.mem_cons_self _ _)
    have h2 : s ∉ xs.map (fun rec => rec.model_id) := fun h => hs (List.mem_cons_of_mem _ h)
    rw [List.foldl_cons, ih _ s h2, upsert_filter_other t x s h1]

lemma foldl_upsert_filter_mem (L : List CleanModel) :
    ∀ t : List CleanModel, (t.map (fun row => row.model_id)).Nodup →
      (L.map (fun rec => rec.model_id)).Nodup →
      ∀ rec ∈ L, (L.foldl upsert t).filter (fun row => row.model_id == rec.model_id) = [rec] := by
  induction L with
  | nil => intro t _ _ rec h; simp at h
  | cons x xs ih =>
    intro t ht hL rec hrec
    rw [List.map_cons, List.nodup_cons] at hL
    rw [List.foldl_cons]
    rcases List.mem_cons.mp hrec with rfl | hrec'
    · rw [foldl_upsert_untouched xs (upsert t rec) rec.model_id hL.1]
      exact upsert_filter_self t rec ht
    · exact ih (upsert t x) (upsert_nodup t x ht) hL.2 rec hrec'

lemma upsert_eq_self (t : List CleanModel) (r : CleanModel)
    (h : t.filter (fun row => row.model_id == r.model_id) = [r]) :
    upsert t r = t := by
  have hrmem : r ∈ t := by
    have hmem : r ∈ t.filter (fun row => row.model_id == r.model_id) := by
      rw [h]; exact List.mem_singleton.mpr rfl
    exact (List.mem_filter.mp hmem).1
  have hany : t.any (fun row => row.model_id == r.model_id) = true :=
    List.any_eq_true.mpr ⟨r, hrmem, by simp⟩
  rw [upsert, if_pos hany]
  have hrow : ∀ row ∈ t, (if row.model_id == r.model_id then r else row) = row := by
    intro row hrowmem
    by_cases hid : row.model_id = r.model_id
    · have hmem : row ∈ t.filter (fun row => row.model_id == r.model_id) :=
        List.mem_filter.mpr ⟨hrowmem, by simp [hid]⟩
      rw [h, List.mem_singleton] at hmem
      rw [if_pos (by simp [hid]), hmem]
    · rw [if_neg (by simp [hid])]
  calc t.map (fun row => if row.model_id == r.model_id then r else row)
      = t.map (fun a => a) := List.map_congr_left hrow
    _ = t := List.map_id' t

lemma foldl_upsert_eq_self (L : List CleanModel) :
    ∀ t : List CleanModel,
      (∀ rec ∈ L, t.filter (fun row => row.model_id == rec.model_id) = [rec]) →
      L.foldl upsert t = t := by
  induction L with
  | nil => intro t _; rfl
  | cons x xs ih =>
    intro t h
    rw [List.foldl_cons, upsert_eq_self t x (h x (List.mem_cons_self x xs))]
    exact ih t (fun rec hrec => h rec (List.mem_cons_of_mem x hrec))

lemma upsertLoop_fail (i : Nat) :
    ∀ (L : List CleanModel) (k : Nat) (t : List CleanModel) (failAt : Nat → Bool),
      i < L.length → failAt (k + i) = true → (∀ j < i, failAt (k + j) = false) →
      upsertLoop failAt L k t =
        ((L.take i).foldl upsert t, (L.take (i + 1)).map DBOp.upsertStmt, false) := by
  induction i with
  | zero =>
    intro L k t failAt hlen hfail _
    cases L with
    | nil => simp at hlen
    | cons r rest =>
      rw [Nat.add_zero] at hfail
      simp [upsertLoop, hfail]
  | succ i ih =>
    intro L k t failAt hlen hfail hbefore
    cases L with
    | nil => simp at hlen
    | cons r rest =>
      have h0 : failAt k = false := by
        have := hbefore 0 (Nat.succ_pos i)
        simpa using this
      have hlen' : i < rest.length := Nat.lt_of_succ_lt_succ (by simpa using hlen)
      have hfail' : failAt (k + 1 + i) = true := by
        rw [Nat.add_assoc, Nat.add_comm 1 i]
        exact hfail
      have hbefore' : ∀ j < i, failAt (k + 1 + j) = false := by
        intro j hj
        rw [Nat.add_assoc, Nat.add_comm 1 j]
        exact hbefore (j + 1) (Nat.succ_lt_succ hj)
      simp only [upsertLoop, h0, Bool.false_eq_true, if_false,
        ih rest (k + 1) (upsert t r) failAt hlen' hfail' hbefore',
        List.take_succ_cons, List.foldl_cons, List.map_cons]

/-- Witness for C10: a record with empty-string `author` and `pipeline_tag`
and empty `tags` list. -/
theorem transform_defaults_falsy_witness :
    ((transform [rawFalsy]).find? (fun c => c.model_id == "m2")).map (fun c => c.author) =
        some "N/A" ∧
      ((transform [rawFalsy]).find? (fun c => c.model_id == "m2")).map
          (fun c => c.pipeline_tag) = some "N/A" ∧
      ((transform [rawFalsy]).find? (fun c => c.model_id == "m2")).map (fun c => c.tags) =
        some [] :=
  ⟨(transform_defaults_falsy [rawFalsy] "m2" rawFalsy (by decide)).1 rfl,
    (transform_defaults_falsy [rawFalsy] "m2" rawFalsy (by decide)).2.1 rfl,
    (transform_defaults_falsy [rawFalsy] "m2" rawFalsy (by decide)).2.2 rfl⟩

/-- C2: with no database error, loading a cleaned list twice leaves exactly
one row per `model_id`, equal to the second load's record for that id; the
second load changes the table not at all, and re-loading updated records for
existing ids overwrites the non-key columns in place rather than adding a
row. -/
theorem load_idempotent_upsert (L t : List CleanModel)
    (hL : (L.map (fun rec => rec.model_id)).Nodup)
    (ht : (t.map (fun row => row.model_id)).Nodup) :
    (∀ rec ∈ L,
        ((load_to_postgres noFail (some L)
              (load_to_postgres noFail (some L) t).table).table).filter
            (fun row => row.model_id == rec.model_id) = [rec]) ∧
      (load_to_postgres noFail (some L)
            (load_to_postgres noFail (some L) t).table).table =
        (load_to_postgres noFail (some L) t).table ∧
      ∀ L' : List CleanModel, (L'.map (fun rec => rec.model_id)).Nodup →
        ∀ rec' ∈ L',
          ((load_to_postgres noFail (some L')
                (load_to_postgres noFail (some L) t).table).table).filter
              (fun row => row.model_id == rec'.model_id) = [rec'] := by
  have h1 : (load_to_postgres noFail (some L) t).table = L.foldl upsert t :=
    load_noFail_table L t
  have ht1 : ((L.foldl upsert t).map (fun row => row.model_id)).Nodup :=
    foldl_upsert_nodup L t ht
  have hfilt : ∀ rec ∈ L,
      (L.foldl upsert t).filter (fun row => row.model_id == rec.model_id) = [rec] :=
    foldl_upsert_filter_mem L t ht hL
  have hid : L.foldl upsert (L.foldl upsert t) = L.foldl upsert t :=
    foldl_upsert_eq_self L _ hfilt
  refine ⟨?_, ?_, ?_⟩
  · intro rec hrec
    rw [h1, load_noFail_table, hid]
    exact hfilt rec hrec
  · rw [h1, load_noFail_table, hid]
  · intro L' hL' rec' hrec'
    rw [h1, load_noFail_table]
    exact foldl_upsert_filter_mem L' _ ht1 hL' rec' hrec'

/-- Witness for C2: loading `[rowA, rowB]` twice over a table holding `rowC`
leaves exactly the row `rowA` for id `m1`. -/
theorem load_idempotent_upsert_witness :
    ((load_to_postgres noFail (some [rowA, rowB])
          (load_to_postgres noFail (some [rowA, rowB]) [rowC]).table).table).filter
        (fun row => row.model_id == rowA.model_id) = [rowA] :=
  (load_idempotent_upsert [rowA, rowB] [rowC] (by decide) (by decide)).1 rowA (by decide)

/-- C4: if the database raises on the upsert of record `i`, the error is
re-raised, the records before `i` stay committed (each statement commits on
its own), and no statement for a record after `i` is issued — the trace is
the create-table statement plus the in-order upsert statements through
index `i`. -/
theorem load_aborts_at_failure (failAt : Nat → Bool) (L t : List CleanModel) (i : Nat)
    (hlen : i < L.length) (hfail : failAt i = true)
    (hbefore : ∀ j < i, failAt j = false) :
    load_to_postgres failAt (some L) t =
      { table := (L.take i).foldl upsert t
        ops := DBOp.createTable :: (L.take (i + 1)).map DBOp.upsertStmt
        status := Except.error () } := by
  cases L with
  | nil => simp at hlen
  | cons d ds =>
    have h := upsertLoop_fail i (d :: ds) 0 t failAt hlen (by simpa using hfail)
      (by intro j hj; simpa using hbefore j hj)
    simp [load_to_postgres, h]

/-- Witness for C4: the second of three upserts fails; the first stays
committed, the third is never attempted, the error is re-raised. -/
theorem load_aborts_at_failure_witness :
    load_to_postgres (fun n => n == 1) (some [rowA, rowB, rowC]) [] =
      { table := [rowA]
        ops := [DBOp.createTable, DBOp.upsertStmt rowA, DBOp.upsertStmt rowB]
        status := Except.error () } := by
  rw [load_aborts_at_failure (fun n => n == 1) [rowA, rowB, rowC] [] 1 (by decide)
    (by decide) (by decide)]
  rfl

/-- C8: an absent or empty `transformed_models` value makes the Loader return
the no-data status with the table untouched and no database statement
issued. -/
theorem load_no_data_early_return (failAt : Nat → Bool) (t : List CleanModel) :
    load_to_postgres failAt none t =
        { table := t, ops := [], status := Except.ok "No data to load" } ∧
      load_to_postgres failAt (some []) t =
        { table := t, ops := [], status := Except.ok "No data to load" } :=
  ⟨rfl, rfl⟩

/-- C3: any exception raised by the Extractor's API call or mapping step is
caught, not propagated: `[]` is pushed under `raw_models` and the
soft-failure status string is returned. -/
theorem extract_swallows_errors (e : String) :
    extract_model_data (Except.error e) =
      { pushes := [("raw_models", [])], status := "Extract failed" } :=
  rfl

end ETL
